import Mathlib

/-!
# Verification of the quantum-inspired serverless architecture (CDK repository)

Shallow embedding of the inline Lambda handler code generated by the CDK
constructs of this repository:

* `HedgedRequest` — the orchestrator code of
  `src/cdk/lib/patterns/hedged-request.ts` (`createOrchestratorCode`);
* `QuantumGate` — the router code of
  `src/cdk/lib/constructs/quantum-gate/quantum-gate.ts` (`createRouterCode`);
* `Superposition` — the coordinator code of the superposition engine
  (`createCoordinatorCode`).

Conventions: JavaScript numbers are modelled as `ℚ` (all arithmetic in the
embedded code is exact on the inputs we consider); possibly-absent object
fields are `Option`; a JavaScript function that can `throw` returns
`Except`; a promise that may never settle returns `Option` (with `none` for
"never settles").  Randomness (`Math.random`, the beta sampler) is passed in
as an explicit argument.
-/

namespace HedgedRequest

/-- One item of the hedged-metrics DynamoDB window, as read back by
`getRecentMetrics`: the fields the decision logic looks at.  `latency` and
`success` may be absent on an item, hence `Option`. -/
structure Metric where
  latency : Option ℚ
  success : Option Bool
  deriving DecidableEq, Repr

/-- The strategy discriminator returned by `determineExecutionStrategy`. -/
inductive StrategyType
  | IMMEDIATE_HEDGE
  | DELAYED_HEDGE
  | SPECULATIVE
  | PRIMARY_ONLY
  deriving DecidableEq, Repr

/-- A strategy decision: `{ type, reason }` in the source. -/
structure Strategy where
  type : StrategyType
  reason : String
  deriving DecidableEq, Repr

/-- The request-event fields inspected by `isHighValueRequest`. -/
structure Event where
  priority : Option String
  userId : Option String
  deriving DecidableEq, Repr

/-- `calculateAverageLatency(metrics)`: `0` for an empty window, otherwise the
mean of `metric.latency || 0` over the window. -/
def calculateAverageLatency (metrics : List Metric) : ℚ :=
  if metrics = [] then 0
  else (metrics.map (fun m => m.latency.getD 0)).sum / metrics.length

/-- `calculatePercentileLatency(metrics, percentile)`: `0` for an empty
window; otherwise sort the `latency || 0` values ascending and take the entry
at `Math.max(0, Math.ceil((percentile/100) * n) - 1)`. -/
def calculatePercentileLatency (metrics : List Metric) (percentile : ℚ) : ℚ :=
  if metrics = [] then 0
  else
    let sorted := List.insertionSort (· ≤ ·) (metrics.map (fun m => m.latency.getD 0))
    let index : ℤ := ⌈(percentile / 100) * metrics.length⌉ - 1
    sorted.getD (max 0 index).toNat 0

/-- `calculateErrorRate(metrics)`: `0` for an empty window, otherwise the
fraction of items with `success === false`. -/
def calculateErrorRate (metrics : List Metric) : ℚ :=
  if metrics = [] then 0
  else (metrics.countP (fun m => m.success == some false) : ℚ) / metrics.length

/-- `isHighValueRequest(event)`:
`event.priority === 'high' || event.userId?.startsWith('premium-')`. -/
def isHighValueRequest (event : Event) : Bool :=
  event.priority == some "high" ||
    (event.userId.map (fun u => u.startsWith "premium-")).getD false

/-- `getRecentMetrics()`: queries the metrics table; on a query error it
catches, warns and returns `[]`; on success it returns `result.Items`
unmarshalled, or `[]` when `Items` is absent.  The store interaction is the
`queryResult` argument. -/
def getRecentMetrics (queryResult : Except String (Option (List Metric))) :
    List Metric :=
  match queryResult with
  | .ok (some items) => items
  | .ok none => []
  | .error _ => []

/-- `determineExecutionStrategy(event)`: fetch the recent-metrics window and
apply the decision chain of the source in order. -/
def determineExecutionStrategy
    (queryResult : Except String (Option (List Metric)))
    (hedgeThresholdMs : ℚ) (enableSpeculative : Bool) (event : Event) :
    Strategy :=
  let recentMetrics := getRecentMetrics queryResult
  let avgLatency := calculateAverageLatency recentMetrics
  let p95Latency := calculatePercentileLatency recentMetrics 95
  let errorRate := calculateErrorRate recentMetrics
  if errorRate > 5/100 then
    ⟨.IMMEDIATE_HEDGE, "High error rate detected"⟩
  else if p95Latency > hedgeThresholdMs * 2 then
    ⟨.IMMEDIATE_HEDGE, "High P95 latency"⟩
  else if avgLatency > hedgeThresholdMs then
    ⟨.DELAYED_HEDGE, "Average latency above threshold"⟩
  else if enableSpeculative && isHighValueRequest event then
    ⟨.SPECULATIVE, "High value request optimization"⟩
  else
    ⟨.PRIMARY_ONLY, "Normal performance conditions"⟩

/-- The strategy decision as the specification words it, over a window of
observations: averageLatency (0 if the window is empty), p95 by nearest-rank
percentile over the sorted window with index `⌈p/100 × n⌉ − 1` clamped to
`≥ 0`, errorRate = failed/total (0 if empty); then first-match-wins:
errorRate > 5% ⇒ ImmediateHedge, p95 > 2× threshold ⇒ ImmediateHedge,
average > threshold ⇒ DelayedHedge, speculative-enabled ∧ high-value ⇒
Speculative, otherwise PrimaryOnly. -/
def specStrategyDecision (window : List Metric) (hedgeThresholdMs : ℚ)
    (speculativeEnabled highValue : Bool) : StrategyType :=
  let n := window.length
  let averageLatency : ℚ :=
    if n = 0 then 0 else (window.map (fun m => m.latency.getD 0)).sum / n
  let p95 : ℚ :=
    if n = 0 then 0
    else
      let sorted := List.insertionSort (· ≤ ·) (window.map (fun m => m.latency.getD 0))
      sorted.getD (max 0 (⌈(95 / 100 : ℚ) * n⌉ - 1)).toNat 0
  let errorRate : ℚ :=
    if n = 0 then 0
    else (window.countP (fun m => m.success == some false) : ℚ) / n
  if errorRate > 5/100 then .IMMEDIATE_HEDGE
  else if p95 > hedgeThresholdMs * 2 then .IMMEDIATE_HEDGE
  else if averageLatency > hedgeThresholdMs then .DELAYED_HEDGE
  else if speculativeEnabled && highValue then .SPECULATIVE
  else .PRIMARY_ONLY

/-- Truthiness of an optional string field (`!result.error` in JavaScript):
an absent field and the empty string are falsy. -/
def jsTruthyStr (s : Option String) : Bool :=
  match s with
  | some v => v ≠ ""
  | none => false

/-- The payload a strategy execution settles with; only the `error` field is
inspected by the metrics writer (`success: result && !result.error`). -/
structure ResultPayload where
  error : Option String
  value : ℚ
  deriving DecidableEq, Repr

/-- The item written by `recordExecutionMetrics`: latency since request
start, the success flag, the strategy and its reason, the timestamp and the
24-hour TTL. -/
structure MetricsItem where
  timestamp : ℚ
  latency : ℚ
  success : Bool
  strategy : StrategyType
  strategyReason : String
  ttl : ℤ
  deriving DecidableEq, Repr

/-- `recordExecutionMetrics(requestId, startTime, result, strategy)` builds
the single metrics item it writes (the `PutItem` itself is wrapped in a
`try/catch` that only warns, so exactly one write is attempted). -/
def recordExecutionMetrics (startTime endTime : ℚ) (result : ResultPayload)
    (strategy : Strategy) : MetricsItem :=
  { timestamp := endTime
    latency := endTime - startTime
    success := !jsTruthyStr result.error
    strategy := strategy.type
    strategyReason := strategy.reason
    ttl := ⌊endTime / 1000⌋ + 86400 }

/-- The orchestrator `handler` after the strategy has been chosen: execute
the strategy (the `switch`), then `recordExecutionMetrics` and return the
result; on a throw, the `catch` logs and rethrows — it performs no
metrics-write.  The value is the settled outcome paired with the list of
metrics items written. -/
def handler (strategyExec : Except String ResultPayload)
    (startTime endTime : ℚ) (strategy : Strategy) :
    Except String ResultPayload × List MetricsItem :=
  match strategyExec with
  | .ok result =>
      (.ok result, [recordExecutionMetrics startTime endTime result strategy])
  | .error e => (.error e, [])

/-- One participant of a hedged request: the time at which its invocation
promise settles and the outcome it settles with. -/
structure Attempt where
  time : ℚ
  outcome : Except String ℚ
  deriving Repr

/-- The response assembled around a winning participant's payload
(`{...result.response, hedgedRequestMetadata: {...}}`).  `hedgesTriggered`
is only present in the delayed-hedge metadata. -/
structure HedgeResponse where
  response : ℚ
  strategy : StrategyType
  winner : String
  hedgesTriggered : Option ℕ
  requestId : String
  deriving DecidableEq, Repr

/-- `Promise.race` over a non-empty list of promises: it settles with the
participant of minimal settle time (on a tie, the participant registered
first).  Returns the winning index and participant. -/
def raceLoop (best : ℕ × Attempt) (i : ℕ) : List Attempt → ℕ × Attempt
  | [] => best
  | a :: rest =>
      if a.time < best.2.time then raceLoop (i, a) (i + 1) rest
      else raceLoop best (i + 1) rest

/-- `Promise.race` over `first :: rest`. -/
def promiseRace (first : Attempt) (rest : List Attempt) : ℕ × Attempt :=
  raceLoop (0, first) 1 rest

/-- `executeImmediateHedgedRequest(event, requestId)`: invoke the primary
and the first `maxHedgedRequests` backups simultaneously and
`Promise.race` them.  The race settles with the outcome of the FIRST
promise to settle; a success is wrapped with `winner` metadata, while a
rejection hits the `catch` and throws
`All hedged requests failed: ${error.message}` — and since the rejection
value is the plain object `{ error, source }`, which has no `message`
property, the message interpolates to `undefined`. -/
def executeImmediateHedgedRequest (primary : Attempt) (backups : List Attempt)
    (maxHedgedRequests : ℕ) (requestId : String) : Except String HedgeResponse :=
  let settled := promiseRace primary (backups.take maxHedgedRequests)
  match settled.2.outcome with
  | .ok v =>
      .ok { response := v
            strategy := .IMMEDIATE_HEDGE
            winner := if settled.1 = 0 then "primary"
                      else "backup-" ++ toString (settled.1 - 1)
            hedgesTriggered := none
            requestId := requestId }
  | .error _ => .error "All hedged requests failed: undefined"

/-- The earliest of a list of pending `resolve` calls (time paired with the
value resolved); on a tie the call registered first wins, matching the
first-`resolve`-wins semantics of a JavaScript promise. -/
def earliestResolve : List (ℚ × HedgeResponse) → Option (ℚ × HedgeResponse)
  | [] => none
  | e :: rest =>
      match earliestResolve rest with
      | none => some e
      | some f => if f.1 < e.1 then some f else some e

/-- `executeDelayedHedgedRequest(event, requestId)` as the outcome of its
explicit `new Promise` executor:

* the primary's `.then` resolves with `winner: 'primary'` at the primary's
  settle time (its `.catch` only warns);
* the hedge timer fires at `hedgeThresholdMs` unless the primary resolved
  first and cleared it; it starts `min(maxHedgedRequests,
  backupFunctionNames.length)` backups, whose `.then` resolves with
  `winner: 'backup-i'` at `hedgeThresholdMs + backup settle time` and whose
  `.catch` swallows the failure, making the hedge promise RESOLVE with
  `undefined`;
* the all-fail check `Promise.all([primaryPromise, ...hedgePromises].map(p
  => p.catch(e => e)))` rejects only when every collected result is an
  `instanceof Error` — a failed hedge contributes `undefined`, not an
  `Error`, so the check can only fire when the primary failed and no hedge
  was triggered.

`none` means the promise never settles (the Lambda would hang until its
own timeout). -/
def executeDelayedHedgedRequest (primary : Attempt) (backups : List Attempt)
    (hedgeThresholdMs : ℚ) (maxHedgedRequests : ℕ) (requestId : String) :
    Option (Except String HedgeResponse) :=
  let k := min maxHedgedRequests backups.length
  let primaryOk := match primary.outcome with | .ok _ => true | .error _ => false
  let timerFires := !(primaryOk && decide (primary.time < hedgeThresholdMs))
  let hedgesAtPrimaryResolve := if primary.time < hedgeThresholdMs then 0 else k
  let primaryResolve : List (ℚ × HedgeResponse) :=
    match primary.outcome with
    | .ok v =>
        [(primary.time,
          { response := v, strategy := .DELAYED_HEDGE, winner := "primary",
            hedgesTriggered := some hedgesAtPrimaryResolve,
            requestId := requestId })]
    | .error _ => []
  let hedgeResolves : List (ℚ × HedgeResponse) :=
    if timerFires then
      ((backups.take k).enum).filterMap fun ib =>
        match ib.2.outcome with
        | .ok v =>
            some (hedgeThresholdMs + ib.2.time,
              { response := v, strategy := .DELAYED_HEDGE,
                winner := "backup-" ++ toString ib.1,
                hedgesTriggered := some (k + 1),
                requestId := requestId })
        | .error _ => none
    else []
  match earliestResolve (primaryResolve ++ hedgeResolves) with
  | some e => some (.ok e.2)
  | none =>
      if !primaryOk && timerFires && decide (k = 0) then
        some (.error "All hedged requests failed")
      else
        none

end HedgedRequest

namespace Superposition

/-- One entry of the `results` array handed to `performQuantumMeasurement`
by the `QuantumMeasurement` state (one per parallel branch):

* `absent` — the entry is falsy or has no `Payload`;
* `unparseable` — a `Payload` is present but `JSON.parse` throws;
* `parsed statusCode executionTime` — the parsed payload's fields the
  measurement inspects (`executionTime` may be absent). -/
inductive Slot
  | absent
  | unparseable
  | parsed (statusCode : ℤ) (executionTime : Option ℚ)
  deriving DecidableEq, Repr

/-- A slot counts as a successful quantum path when its payload parsed and
`payload.statusCode === 200`. -/
def slotSuccess : Slot → Bool
  | .parsed sc _ => sc == 200
  | _ => false

/-- `payload.executionTime || timestamp`: the JavaScript `||` falls back to
`timestamp` when the field is absent or `0` (falsy). -/
def jsOrNum (x : Option ℚ) (fallback : ℚ) : ℚ :=
  match x with
  | some v => if v = 0 then fallback else v
  | none => fallback

/-- The effective execution time the measurement compares for a slot. -/
def effTime (timestamp : ℚ) : Slot → ℚ
  | .parsed _ et => jsOrNum et timestamp
  | _ => timestamp

/-- The `for` loop of `performQuantumMeasurement`: scan the results in
index order keeping `(winningPathId, fastestTime)`; a parsed payload with
`statusCode === 200` replaces the current winner exactly when its effective
execution time is strictly below `fastestTime` (initially `Infinity`,
modelled by `none`). -/
def measureScan (timestamp : ℚ) :
    List Slot → ℕ → Option (ℕ × ℚ) → Option (ℕ × ℚ)
  | [], _, acc => acc
  | s :: rest, i, acc =>
      let acc' :=
        match s with
        | .parsed sc et =>
            if sc = 200 then
              let t := jsOrNum et timestamp
              match acc with
              | none => some (i, t)
              | some (j, f) => if t < f then some (i, t) else some (j, f)
            else acc
        | _ => acc
      measureScan timestamp rest (i + 1) acc'

/-- The object `performQuantumMeasurement` returns (the measurement the
`EvaluateQuantumResults` choice state inspects).  The `quantumEfficiency`
string of the collapsed metadata (a `toFixed(2)` rendering) is not
modelled. -/
structure Measurement where
  status : String
  winningPath : Option ℕ
  latency : Option ℚ
  totalPaths : ℕ
  failedPaths : Option ℕ
  error : Option String
  deriving DecidableEq, Repr

/-- The `MEASUREMENT` record stored in the result table; its
`successfulPaths` field counts the entries with a `Payload`
(`results.filter(r => r && r.Payload).length`), parseable or not. -/
structure MeasurementRecord where
  winningPath : Option ℕ
  totalPaths : ℕ
  successfulPaths : ℕ
  latency : Option ℚ
  deriving DecidableEq, Repr

/-- Whether a slot carries a `Payload` (`r && r.Payload`). -/
def slotHasPayload : Slot → Bool
  | .absent => false
  | _ => true

/-- `performQuantumMeasurement(event)`: scan for the fastest successful
result, store the measurement record, and return either the `collapsed`
measurement carrying the winner or the `decoherent` one carrying no winner
and the error `No successful quantum path found`.  `startTimeMs` is the
parsed `event.metadata.startTime` (absent when the field is falsy);
`timestamp` is `Date.now()`. -/
def performQuantumMeasurement (results : List Slot) (startTimeMs : Option ℚ)
    (timestamp : ℚ) : Measurement × MeasurementRecord :=
  let win := measureScan timestamp results 0 none
  let base := startTimeMs.getD timestamp
  let record : MeasurementRecord :=
    { winningPath := win.map (·.1)
      totalPaths := results.length
      successfulPaths := results.countP slotHasPayload
      latency := win.map (fun w => w.2 - base) }
  match win with
  | some (i, t) =>
      ({ status := "collapsed"
         winningPath := some i
         latency := some (t - base)
         totalPaths := results.length
         failedPaths := none
         error := none }, record)
  | none =>
      ({ status := "decoherent"
         winningPath := none
         latency := none
         totalPaths := results.length
         failedPaths := some results.length
         error := some "No successful quantum path found" }, record)

/-- Modelled from the claim's words, for comparison with the code: the
winner of a genuine race is the first candidate to return a successful
result.  Each slot is paired with the wall-clock time at which its branch
returned; among the successful slots, the one with the earliest return
time wins (ties to the earlier index). -/
def returnScan : List (Slot × ℚ) → ℕ → Option (ℕ × ℚ) → Option (ℕ × ℚ)
  | [], _, acc => acc
  | (s, arrival) :: rest, i, acc =>
      let acc' :=
        if slotSuccess s then
          match acc with
          | none => some (i, arrival)
          | some (j, a) => if arrival < a then some (i, arrival) else some (j, a)
        else acc
      returnScan rest (i + 1) acc'

/-- The index of the first candidate to return a successful result. -/
def firstSuccessfulByReturn (slots : List (Slot × ℚ)) : Option ℕ :=
  (returnScan slots 0 none).map (·.1)

end Superposition

namespace QuantumGate

/-- One entry of the router's `executionPaths` environment value:
`{ name, weight, functionName }`. -/
structure QPath where
  name : String
  weight : ℚ
  functionName : String
  deriving DecidableEq, Repr

/-- The per-path record of the in-memory `pathStats` object. -/
structure PathStats where
  successCount : ℚ
  totalCount : ℚ
  avgLatency : ℚ
  totalLatency : ℚ
  deriving DecidableEq, Repr

/-- The `pathStats` object: a partial map from path name to its record. -/
def StatsMap : Type := String → Option PathStats

/-- The initial `pathStats = {}`. -/
def emptyStats : StatsMap := fun _ => none

/-- The subtraction loop of `weightedRandomSelection`: subtract each
candidate's weight from the running value and return the first candidate at
which it is `≤ 0`. -/
def selectLoop : List QPath → ℚ → Option QPath
  | [], _ => none
  | p :: rest, r => if r - p.weight ≤ 0 then some p else selectLoop rest (r - p.weight)

/-- `weightedRandomSelection()`: `random = Math.random() * totalWeight`
(the `Math.random()` draw `u` is an argument), then the subtraction loop;
if the loop falls through, fall back to `executionPaths[0]`. -/
def weightedRandomSelection (executionPaths : List QPath) (u : ℚ) : Option QPath :=
  let totalWeight := executionPaths.foldl (fun sum path => sum + path.weight) 0
  match selectLoop executionPaths (u * totalWeight) with
  | some path => some path
  | none => executionPaths.head?

/-- The loop of `thompsonSampling()`: for each path, look up its stats
(defaulting to `{ successCount: 1, totalCount: 2, avgLatency: 1000 }`),
draw `betaSample(successCount + 1, totalCount - successCount + 1)`, divide
by `avgLatency / 1000`, and keep the path whose sample is strictly greater
than the best so far (`bestSample` starts at `-Infinity`, modelled by
`none`, so the first path always becomes the initial best). -/
def tsLoop (pathStats : StatsMap) (betaSample : ℚ → ℚ → ℚ) :
    List QPath → Option (QPath × ℚ) → Option (QPath × ℚ)
  | [], best => best
  | path :: rest, best =>
      let stats := (pathStats path.name).getD ⟨1, 2, 1000, 0⟩
      let alpha := stats.successCount + 1
      let beta := stats.totalCount - stats.successCount + 1
      let sample := betaSample alpha beta / (stats.avgLatency / 1000)
      let best' :=
        match best with
        | none => some (path, sample)
        | some (bp, bs) => if sample > bs then some (path, sample) else some (bp, bs)
      tsLoop pathStats betaSample rest best'

/-- `thompsonSampling()`: run the sampling loop over `executionPaths` and
return `bestPath || executionPaths[0]`.  The beta sampler is an explicit
argument standing for the two `Math.random()` draws of `betaSample`. -/
def thompsonSampling (executionPaths : List QPath) (pathStats : StatsMap)
    (betaSample : ℚ → ℚ → ℚ) : Option QPath :=
  match tsLoop pathStats betaSample executionPaths none with
  | some best => some best.1
  | none => executionPaths.head?

/-- The score of one candidate as the specification words it: a sample from
`Beta(α, β)` with `α = successCount + 1`, `β = (totalCount − successCount)
+ 1`, divided by `averageLatencyMs / 1000`.  For a candidate with no
recorded observations the claim fixes `averageLatencyMs = 1000`; its `α`
and `β` come from the router's default record `successCount = 1,
totalCount = 2`, giving `Beta(2, 2)`. -/
def specScore (pathStats : StatsMap) (betaSample : ℚ → ℚ → ℚ) (p : QPath) : ℚ :=
  match pathStats p.name with
  | some s =>
      betaSample (s.successCount + 1) (s.totalCount - s.successCount + 1) /
        (s.avgLatency / 1000)
  | none => betaSample 2 2 / (1000 / 1000)

/-- `updatePathStats(pathName, latency, success)`: create the zero record
if the path has none, then increment `totalCount`, accumulate
`totalLatency`, recompute `avgLatency`, and increment `successCount` iff
`success`. -/
def updatePathStats (pathStats : StatsMap) (pathName : String) (latency : ℚ)
    (success : Bool) : StatsMap :=
  let stats := (pathStats pathName).getD ⟨0, 0, 0, 0⟩
  let totalCount := stats.totalCount + 1
  let totalLatency := stats.totalLatency + latency
  let avgLatency := totalLatency / totalCount
  let successCount := if success then stats.successCount + 1 else stats.successCount
  fun n =>
    if n = pathName then
      some ⟨successCount, totalCount, avgLatency, totalLatency⟩
    else pathStats n

/-- The effect of one router `handler` invocation on `pathStats`: after a
completed `lambda.send` the handler calls
`updatePathStats(selectedPath.name, latency, true)` — the literal `true` —
and a throw anywhere in the `try` block reaches the `catch` without any
statistics update. -/
def handlerStatsUpdate (pathStats : StatsMap) (selectedPath : QPath)
    (invocation : Except String Unit) (latency : ℚ) : StatsMap :=
  match invocation with
  | .ok _ => updatePathStats pathStats selectedPath.name latency true
  | .error _ => pathStats

/-- The `pathStats` states reachable by the router: the empty object at
cold start, then one `handlerStatsUpdate` per handled request. -/
inductive ReachableStats : StatsMap → Prop
  | init : ReachableStats emptyStats
  | step {s : StatsMap} (path : QPath) (invocation : Except String Unit)
      (latency : ℚ) (h : ReachableStats s) :
      ReachableStats (handlerStatsUpdate s path invocation latency)

end QuantumGate

namespace Superposition

/-- Loop invariant of `measureScan` over the already-scanned prefix `pre`:
an empty accumulator means no successful slot has been seen; a
`some (j, t)` accumulator points at a successful slot of the prefix whose
effective execution time `t` is minimal over the prefix's successful
slots, strictly below every successful slot before position `j`. -/
def ScanInv (ts : ℚ) (pre : List Slot) (acc : Option (ℕ × ℚ)) : Prop :=
  match acc with
  | none => ∀ s ∈ pre, slotSuccess s = false
  | some (j, t) =>
      ∃ s, pre.get? j = some s ∧ slotSuccess s = true ∧ t = effTime ts s ∧
        (∀ k s', pre.get? k = some s' → slotSuccess s' = true → t ≤ effTime ts s') ∧
        (∀ k s', k < j → pre.get? k = some s' → slotSuccess s' = true → t < effTime ts s')

end Superposition

namespace QuantumGate

/-- Loop invariant of `tsLoop` over the already-scanned prefix `pre`, with
respect to a scoring function: an empty best means nothing scanned yet; a
`some (bp, bs)` best points at a prefix element whose score `bs` is maximal
over the prefix and strictly above every element before it (first-seen
tie-break). -/
def TsInv (score : QPath → ℚ) (pre : List QPath) (best : Option (QPath × ℚ)) : Prop :=
  match best with
  | none => pre = []
  | some (bp, bs) =>
      ∃ j, pre.get? j = some bp ∧ bs = score bp ∧
        (∀ k p', pre.get? k = some p' → score p' ≤ bs) ∧
        (∀ k p', k < j → pre.get? k = some p' → score p' < bs)

end QuantumGate

namespace HedgedRequest

/-- Claim C5: the strategy decision over a window of observations computes
averageLatency (0 if the window is empty), p95 latency by nearest-rank
percentile over the sorted window with index ⌈p/100 × n⌉ − 1 clamped to
≥ 0, and errorRate = failed/total (0 if the window is empty), and applies
the decision rules first-match-wins: errorRate > 5% ⇒ ImmediateHedge,
p95 > 2× hedge threshold ⇒ ImmediateHedge, averageLatency > threshold ⇒
DelayedHedge, speculative-enabled and high-value ⇒ Speculative, otherwise
PrimaryOnly. -/
theorem determineExecutionStrategy_matches_specDecision
    (w : List Metric) (thr : ℚ) (sp : Bool) (ev : Event) :
    (determineExecutionStrategy (.ok (some w)) thr sp ev).type
      = specStrategyDecision w thr sp (isHighValueRequest ev) := by
  simp only [determineExecutionStrategy, specStrategyDecision, getRecentMetrics,
    calculateAverageLatency, calculatePercentileLatency, calculateErrorRate,
    List.length_eq_zero]
  split_ifs <;> rfl

/-- Claim C9: a failure of the metrics-store query never propagates — the
caller receives the empty window, so errorRate and averageLatency are 0 and
the strategy decision proceeds exactly as over an empty window. -/
theorem metricsStoreFailure_degrades_to_empty_window
    (e : String) (thr : ℚ) (sp : Bool) (ev : Event) :
    getRecentMetrics (.error e) = [] ∧
    calculateErrorRate (getRecentMetrics (.error e)) = 0 ∧
    calculateAverageLatency (getRecentMetrics (.error e)) = 0 ∧
    determineExecutionStrategy (.error e) thr sp ev
      = determineExecutionStrategy (.ok (some [])) thr sp ev :=
  ⟨rfl, rfl, rfl, rfl⟩

/-- Claim C4, counterexample: a failing strategy execution is a terminal
outcome of the orchestrator, yet the handler performs no metrics-write on
it — not the exactly-one write the claim requires. -/
theorem handler_failurePath_writes_no_metrics :
    handler (.error "boom") 0 100 ⟨.PRIMARY_ONLY, "Normal performance conditions"⟩
      = (.error "boom", []) ∧
    (handler (.error "boom") 0 100
        ⟨.PRIMARY_ONLY, "Normal performance conditions"⟩).2.length ≠ 1 := by
  exact ⟨rfl, by decide⟩

/-- Claim C4, amended: a terminal outcome on the success path triggers
exactly one metrics-write, recording the latency since request start, the
success flag (`result && !result.error`) and the strategy; on the failure
path the error propagates and no metrics-write occurs. -/
theorem handler_metrics_write_on_success_path_only
    (r : ResultPayload) (e : String) (startTime endTime : ℚ) (strat : Strategy) :
    handler (.ok r) startTime endTime strat
      = (.ok r,
         [{ timestamp := endTime
            latency := endTime - startTime
            success := !jsTruthyStr r.error
            strategy := strat.type
            strategyReason := strat.reason
            ttl := ⌊endTime / 1000⌋ + 86400 }]) ∧
    handler (.error e) startTime endTime strat = (.error e, []) :=
  ⟨rfl, rfl⟩

/-- Claim C2: with the primary rejecting at 10 ms and the single backup
resolving successfully at 80 ms, `Promise.race` settles with the primary's
rejection — the first settled outcome, not the first successful one — so
the immediate hedge throws even though a backup succeeds, and the error
names no failure source. -/
theorem immediateHedge_fails_on_first_settled_rejection :
    executeImmediateHedgedRequest ⟨10, .error "primary boom"⟩ [⟨80, .ok 42⟩] 2 "req-1"
      = .error "All hedged requests failed: undefined" := rfl

/-- Claim C3: with the primary failing at 50 ms (before the 100 ms hedge
timer) and the one triggered backup also failing, the delayed-hedge promise
never settles: the failed hedge resolves to `undefined`, so the all-fail
check finds 1 `Error` among 2 results and never rejects — the orchestrator
hangs instead of failing with an aggregate error. -/
theorem delayedHedge_hangs_when_all_participants_fail :
    executeDelayedHedgedRequest ⟨50, .error "primary boom"⟩ [⟨30, .error "backup boom"⟩]
      100 2 "req-1" = none := rfl

end HedgedRequest

namespace QuantumGate

/-- Helper: the subtraction loop only ever returns a member of the list. -/
theorem selectLoop_mem : ∀ {l : List QPath} {r : ℚ} {p : QPath},
    selectLoop l r = some p → p ∈ l := by
  intro l
  induction l with
  | nil => intro r p h; simp [selectLoop] at h
  | cons q rest ih =>
      intro r p h
      simp only [selectLoop] at h
      split at h
      · exact (Option.some_inj.mp h) ▸ List.mem_cons_self q rest
      · exact List.mem_cons_of_mem q (ih h)

/-- Claim C6: for every non-empty candidate list with positive weights and a
uniform draw in [0, 1), weighted random selection — subtract each weight in
iteration order, return the first candidate at which the remainder is ≤ 0,
fall back to the first candidate — always returns some candidate of the
list, never "no selection". -/
theorem weightedRandomSelection_total (paths : List QPath) (u : ℚ)
    (hne : paths ≠ []) (hw : ∀ p ∈ paths, 0 < p.weight)
    (hu0 : 0 ≤ u) (hu1 : u < 1) :
    ∃ p, weightedRandomSelection paths u = some p ∧ p ∈ paths := by
  clear hw hu0 hu1
  simp only [weightedRandomSelection]
  cases h : selectLoop paths (u * paths.foldl (fun sum path => sum + path.weight) 0) with
  | some p => exact ⟨p, rfl, selectLoop_mem h⟩
  | none =>
      obtain ⟨a, l', rfl⟩ := List.exists_cons_of_ne_nil hne
      exact ⟨a, rfl, List.mem_cons_self a l'⟩

/-- Witness for C6 at a concrete two-candidate list and draw 0. -/
theorem weightedRandomSelection_total_witness :
    (([⟨"a", 1, "fa"⟩, ⟨"b", 2, "fb"⟩] : List QPath) ≠ [] ∧
      (∀ p ∈ ([⟨"a", 1, "fa"⟩, ⟨"b", 2, "fb"⟩] : List QPath), 0 < p.weight) ∧
      (0 : ℚ) ≤ 0 ∧ (0 : ℚ) < 1) ∧
    ∃ p, weightedRandomSelection [⟨"a", 1, "fa"⟩, ⟨"b", 2, "fb"⟩] 0 = some p ∧
      p ∈ ([⟨"a", 1, "fa"⟩, ⟨"b", 2, "fb"⟩] : List QPath) :=
  ⟨⟨by decide, by decide, by decide, by decide⟩,
    weightedRandomSelection_total _ _ (by decide) (by decide) (by decide) (by decide)⟩

/-- Claim C10: every reachable `pathStats` state of the router satisfies
`successCount = totalCount` on every entry it holds — the handler only
updates statistics after a completed invocation and always with the success
flag `true`, and a failed invocation reaches the `catch` without updating. -/
theorem routerPathStats_successCount_eq_totalCount {s : StatsMap}
    (h : ReachableStats s) :
    ∀ n st, s n = some st → st.successCount = st.totalCount := by
  induction h with
  | init => intro n st hst; simp [emptyStats] at hst
  | @step s0 path invocation latency hs ih =>
      intro n st hst
      cases invocation with
      | error e => exact ih n st hst
      | ok u =>
          simp only [handlerStatsUpdate, updatePathStats] at hst
          by_cases hn : n = path.name
          · rw [if_pos hn] at hst
            replace hst := (Option.some_inj.mp hst).symm
            cases hps : s0 path.name with
            | none => subst hst; simp [hps]
            | some st0 =>
                subst hst
                have heq := ih path.name st0 hps
                simp [hps, heq]
          · rw [if_neg hn] at hst
            exact ih n st hst

/-- Witness for C10 on the state reached after one successful invocation. -/
theorem routerPathStats_successCount_eq_totalCount_witness :
    (handlerStatsUpdate emptyStats ⟨"a", 1, "fa"⟩ (.ok ()) 5) "a" = some ⟨1, 1, 5, 5⟩ ∧
    (⟨1, 1, 5, 5⟩ : PathStats).successCount = (⟨1, 1, 5, 5⟩ : PathStats).totalCount :=
  ⟨by simp [handlerStatsUpdate, updatePathStats, emptyStats],
    routerPathStats_successCount_eq_totalCount
      (ReachableStats.step ⟨"a", 1, "fa"⟩ (.ok ()) 5 ReachableStats.init) "a" ⟨1, 1, 5, 5⟩
      (by simp [handlerStatsUpdate, updatePathStats, emptyStats])⟩

end QuantumGate

namespace Superposition

/-- Helper: the last element of an appended singleton sits at index
`pre.length`. -/
theorem get?_append_right_self {α : Type} (pre : List α) (s : α) :
    (pre ++ [s]).get? pre.length = some s := List.get?_concat_length pre s

/-- Helper: scanning past a non-successful slot preserves the scan
invariant. -/
theorem scanInv_append_nonsuccess (ts : ℚ) (pre : List Slot) (acc : Option (ℕ × ℚ))
    (s : Slot) (hs : slotSuccess s = false) (h : ScanInv ts pre acc) :
    ScanInv ts (pre ++ [s]) acc := by
  cases acc with
  | none =>
      intro x hx
      rcases List.mem_append.mp hx with hx | hx
      · exact h x hx
      · rcases List.mem_singleton.mp hx with rfl
        exact hs
  | some jt =>
      obtain ⟨j, t⟩ := jt
      obtain ⟨s₀, hj, hsucc, ht, hall, hstrict⟩ := h
      have hjlt : j < pre.length := by
        rcases List.get?_eq_some.mp hj with ⟨hlt, _⟩; exact hlt
      refine ⟨s₀, ?_, hsucc, ht, ?_, ?_⟩
      · rw [List.get?_append hjlt]; exact hj
      · intro k s' hk hsucc'
        rcases lt_trichotomy k pre.length with hlt | heq | hgt
        · rw [List.get?_append hlt] at hk
          exact hall k s' hk hsucc'
        · subst heq
          rw [get?_append_right_self] at hk
          rcases Option.some_inj.mp hk with rfl
          rw [hsucc'] at hs; cases hs
        · have : (pre ++ [s]).get? k = none := by
            rw [List.get?_eq_none]
            simp only [List.length_append, List.length_singleton]
            omega
          rw [this] at hk; cases hk
      · intro k s' hklt hk hsucc'
        have hlt : k < pre.length := lt_trans hklt hjlt
        rw [List.get?_append hlt] at hk
        exact hstrict k s' hklt hk hsucc'

/-- Helper: scanning past a successful slot (`statusCode === 200`) updates
the accumulator exactly as the loop body does and preserves the scan
invariant. -/
theorem scanInv_append_success (ts : ℚ) (pre : List Slot) (acc : Option (ℕ × ℚ))
    (et : Option ℚ) :
    ScanInv ts pre acc →
    ScanInv ts (pre ++ [.parsed 200 et])
      (match acc with
       | none => some (pre.length, jsOrNum et ts)
       | some (j, f) =>
           if jsOrNum et ts < f then some (pre.length, jsOrNum et ts)
           else some (j, f)) := by
  intro h
  have hself : (pre ++ [Slot.parsed 200 et]).get? pre.length = some (.parsed 200 et) :=
    get?_append_right_self pre _
  have hnone : ∀ k, pre.length < k → (pre ++ [Slot.parsed 200 et]).get? k = none := by
    intro k hk
    rw [List.get?_eq_none]
    simp only [List.length_append, List.length_singleton]
    omega
  cases acc with
  | none =>
      refine ⟨.parsed 200 et, hself, by simp [slotSuccess], rfl, ?_, ?_⟩
      · intro k s' hk hsucc'
        rcases lt_trichotomy k pre.length with hlt | heq | hgt
        · rw [List.get?_append hlt] at hk
          have := h s' (List.get?_mem hk)
          rw [hsucc'] at this; cases this
        · subst heq
          rw [hself] at hk
          rcases Option.some_inj.mp hk with rfl
          exact le_refl _
        · rw [hnone k hgt] at hk; cases hk
      · intro k s' hklt hk hsucc'
        rw [List.get?_append hklt] at hk
        have := h s' (List.get?_mem hk)
        rw [hsucc'] at this; cases this
  | some jt =>
      obtain ⟨j, t⟩ := jt
      dsimp only
      obtain ⟨s₀, hj, hsucc, ht, hall, hstrict⟩ := h
      have hjlt : j < pre.length := by
        rcases List.get?_eq_some.mp hj with ⟨hlt, _⟩; exact hlt
      by_cases hcmp : jsOrNum et ts < t
      · rw [if_pos hcmp]
        refine ⟨.parsed 200 et, hself, by simp [slotSuccess], rfl, ?_, ?_⟩
        · intro k s' hk hsucc'
          rcases lt_trichotomy k pre.length with hlt | heq | hgt
          · rw [List.get?_append hlt] at hk
            exact le_of_lt (lt_of_lt_of_le hcmp (hall k s' hk hsucc'))
          · subst heq
            rw [hself] at hk
            rcases Option.some_inj.mp hk with rfl
            exact le_refl _
          · rw [hnone k hgt] at hk; cases hk
        · intro k s' hklt hk hsucc'
          rw [List.get?_append hklt] at hk
          exact lt_of_lt_of_le hcmp (hall k s' hk hsucc')
      · rw [if_neg hcmp]
        refine ⟨s₀, ?_, hsucc, ht, ?_, ?_⟩
        · rw [List.get?_append hjlt]; exact hj
        · intro k s' hk hsucc'
          rcases lt_trichotomy k pre.length with hlt | heq | hgt
          · rw [List.get?_append hlt] at hk
            exact hall k s' hk hsucc'
          · subst heq
            rw [hself] at hk
            rcases Option.some_inj.mp hk with rfl
            simpa [effTime] using le_of_not_lt hcmp
          · rw [hnone k hgt] at hk; cases hk
        · intro k s' hklt hk hsucc'
          have hlt : k < pre.length := lt_trans hklt hjlt
          rw [List.get?_append hlt] at hk
          exact hstrict k s' hklt hk hsucc'

/-- Helper: the scan invariant is preserved along the whole loop. -/
theorem measureScan_inv (ts : ℚ) :
    ∀ (l pre : List Slot) (acc : Option (ℕ × ℚ)),
      ScanInv ts pre acc → ScanInv ts (pre ++ l) (measureScan ts l pre.length acc) := by
  intro l
  induction l with
  | nil => intro pre acc h; simpa [measureScan] using h
  | cons s rest ih =>
      intro pre acc h
      simp only [measureScan]
      have key : ∀ acc', ScanInv ts (pre ++ [s]) acc' →
          ScanInv ts (pre ++ s :: rest) (measureScan ts rest (pre.length + 1) acc') := by
        intro acc' h'
        have h2 := ih (pre ++ [s]) acc' h'
        simpa [List.length_append] using h2
      cases s with
      | absent => exact key acc (scanInv_append_nonsuccess ts pre acc _ rfl h)
      | unparseable => exact key acc (scanInv_append_nonsuccess ts pre acc _ rfl h)
      | parsed sc et =>
          dsimp only
          by_cases hsc : sc = 200
          · subst hsc
            rw [if_pos rfl]
            exact key _ (scanInv_append_success ts pre acc et h)
          · simp only [if_neg hsc]
            exact key acc (scanInv_append_nonsuccess ts pre acc _
              (by simp [slotSuccess, hsc]) h)

/-- Helper: the invariant holds of the full scan of the results array. -/
theorem scanInv_full (results : List Slot) (ts : ℚ) :
    ScanInv ts results (measureScan ts results 0 none) := by
  have h := measureScan_inv ts results [] none (by intro s hs; cases hs)
  simpa using h

/-- Claim C8: a race in which no candidate path returns a successful result
produces a measurement that carries no winner and is tagged with the
distinct terminal status `decoherent` (error `No successful quantum path
found`) — a normal return, not an escaping exception; and in general the
measurement carries no winner exactly when the results hold zero successful
candidates. -/
theorem quantumMeasurement_decoherent_iff_no_success
    (results : List Slot) (st : Option ℚ) (ts : ℚ) :
    ((performQuantumMeasurement results st ts).1.winningPath = none ↔
      results.countP slotSuccess = 0) ∧
    (results.countP slotSuccess = 0 →
      (performQuantumMeasurement results st ts).1.status = "decoherent" ∧
      (performQuantumMeasurement results st ts).1.error
        = some "No successful quantum path found") := by
  have hinv := scanInv_full results ts
  cases hscan : measureScan ts results 0 none with
  | none =>
      rw [hscan] at hinv
      have hcount : results.countP slotSuccess = 0 := by
        rw [List.countP_eq_zero]
        intro s hs
        simp [hinv s hs]
      constructor
      · simp [performQuantumMeasurement, hscan, hcount]
      · intro _
        simp [performQuantumMeasurement, hscan]
  | some jt =>
      obtain ⟨j, t⟩ := jt
      rw [hscan] at hinv
      obtain ⟨s₀, hj, hsucc, -, -, -⟩ := hinv
      have hcount : results.countP slotSuccess ≠ 0 := by
        intro hc
        rw [List.countP_eq_zero] at hc
        exact absurd hsucc (by simp [hc s₀ (List.get?_mem hj)])
      constructor
      · simp [performQuantumMeasurement, hscan, hcount]
      · intro hc; exact absurd hc hcount

/-- Witness for C8 on a race whose three paths all fail (non-200 payload,
unparseable payload, missing result). -/
theorem quantumMeasurement_decoherent_iff_no_success_witness :
    (performQuantumMeasurement [.parsed 500 (some 50), .unparseable, .absent]
        none 1000).1.winningPath = none ∧
    (performQuantumMeasurement [.parsed 500 (some 50), .unparseable, .absent]
        none 1000).1.status = "decoherent" ∧
    (performQuantumMeasurement [.parsed 500 (some 50), .unparseable, .absent]
        none 1000).1.error = some "No successful quantum path found" :=
  ⟨(quantumMeasurement_decoherent_iff_no_success _ _ _).1.mpr (by decide),
    ((quantumMeasurement_decoherent_iff_no_success _ _ _).2 (by decide)).1,
    ((quantumMeasurement_decoherent_iff_no_success _ _ _).2 (by decide)).2⟩

/-- Claim C1, counterexample: path 0 returns a successful result first (at
5 ms, against 30 ms for path 1), but the collapse picks path 1 because its
payload's `executionTime` (10) is numerically lowest — the winner is the
result of a post-hoc minimum scan, not the first candidate to return a
successful result. -/
theorem measurementWinner_not_firstToReturn :
    firstSuccessfulByReturn [(.parsed 200 (some 50), 5), (.parsed 200 (some 10), 30)]
      = some 0 ∧
    (performQuantumMeasurement [.parsed 200 (some 50), .parsed 200 (some 10)]
        (some 0) 1000).1.winningPath = some 1 ∧
    (some 1 : Option ℕ) ≠ (some 0 : Option ℕ) :=
  ⟨by decide, by decide, by decide⟩

/-- Claim C1, amended: for every race whose results hold at least one
successful candidate, the winner of the collapse is the successful
candidate with the numerically lowest effective `executionTime`, found by a
post-hoc scan of the completed results (ties to the lowest path index) —
in particular {A: 50 ms, B: 10 ms} yields B whatever the return order,
since arrival order is not even an input of the scan. -/
theorem measurementWinner_is_fastest_executionTime
    (results : List Slot) (st : Option ℚ) (ts : ℚ)
    (h : 0 < results.countP slotSuccess) :
    ∃ i s, (performQuantumMeasurement results st ts).1.winningPath = some i ∧
      results.get? i = some s ∧ slotSuccess s = true ∧
      (∀ k s', results.get? k = some s' → slotSuccess s' = true →
        effTime ts s ≤ effTime ts s') ∧
      (∀ k s', k < i → results.get? k = some s' → slotSuccess s' = true →
        effTime ts s < effTime ts s') := by
  have hinv := scanInv_full results ts
  cases hscan : measureScan ts results 0 none with
  | none =>
      rw [hscan] at hinv
      rw [show results.countP slotSuccess = 0 from
        List.countP_eq_zero.mpr (fun s hs => by simp [hinv s hs])] at h
      cases h
  | some jt =>
      obtain ⟨j, t⟩ := jt
      rw [hscan] at hinv
      obtain ⟨s₀, hj, hsucc, ht, hall, hstrict⟩ := hinv
      refine ⟨j, s₀, ?_, hj, hsucc, ?_, ?_⟩
      · simp [performQuantumMeasurement, hscan]
      · intro k s' hk hs'
        exact ht ▸ hall k s' hk hs'
      · intro k s' hklt hk hs'
        exact ht ▸ hstrict k s' hklt hk hs'

/-- Witness for the amended C1 on the {A: 50 ms, B: 10 ms} race. -/
theorem measurementWinner_is_fastest_executionTime_witness :
    0 < List.countP slotSuccess [.parsed 200 (some 50), .parsed 200 (some 10)] ∧
    ∃ i s, (performQuantumMeasurement [.parsed 200 (some 50), .parsed 200 (some 10)]
        (some 0) 1000).1.winningPath = some i ∧
      List.get? [.parsed 200 (some 50), .parsed 200 (some 10)] i = some s ∧
      slotSuccess s = true ∧
      (∀ k s', List.get? [.parsed 200 (some 50), .parsed 200 (some 10)] k = some s' →
        slotSuccess s' = true → effTime 1000 s ≤ effTime 1000 s') ∧
      (∀ k s', k < i →
        List.get? [.parsed 200 (some 50), .parsed 200 (some 10)] k = some s' →
        slotSuccess s' = true → effTime 1000 s < effTime 1000 s') :=
  ⟨by decide, measurementWinner_is_fastest_executionTime _ _ _ (by decide)⟩

end Superposition

namespace QuantumGate

/-- Helper: the sample computed by the Thompson loop body equals the
specification-side score of the candidate. -/
theorem tsSample_eq (pathStats : StatsMap) (betaSample : ℚ → ℚ → ℚ) (path : QPath) :
    betaSample (((pathStats path.name).getD ⟨1, 2, 1000, 0⟩).successCount + 1)
        (((pathStats path.name).getD ⟨1, 2, 1000, 0⟩).totalCount -
          ((pathStats path.name).getD ⟨1, 2, 1000, 0⟩).successCount + 1) /
      (((pathStats path.name).getD ⟨1, 2, 1000, 0⟩).avgLatency / 1000)
    = specScore pathStats betaSample path := by
  cases h : pathStats path.name with
  | some s => simp [specScore, h]
  | none => simp [specScore, h]; norm_num

/-- Helper: one step of the Thompson loop preserves the first-argmax
invariant, for any scoring function. -/
theorem tsInv_append (score : QPath → ℚ) (pre : List QPath)
    (best : Option (QPath × ℚ)) (p : QPath) :
    TsInv score pre best →
    TsInv score (pre ++ [p])
      (match best with
       | none => some (p, score p)
       | some (bp, bs) => if score p > bs then some (p, score p) else some (bp, bs)) := by
  intro h
  have hself : (pre ++ [p]).get? pre.length = some p := List.get?_concat_length pre p
  have hnone : ∀ k, pre.length < k → (pre ++ [p]).get? k = none := by
    intro k hk
    rw [List.get?_eq_none]
    simp only [List.length_append, List.length_singleton]
    omega
  cases best with
  | none =>
      have hpre : pre = [] := h
      subst hpre
      refine ⟨0, by simp, rfl, ?_, ?_⟩
      · intro k p' hk
        cases k with
        | zero => simp at hk; exact hk ▸ le_refl _
        | succ n => simp at hk
      · intro k p' hklt
        exact absurd hklt (Nat.not_lt_zero k)
  | some bpbs =>
      obtain ⟨bp, bs⟩ := bpbs
      dsimp only
      obtain ⟨j, hj, hbs, hall, hstrict⟩ := h
      have hjlt : j < pre.length := by
        rcases List.get?_eq_some.mp hj with ⟨hlt, _⟩; exact hlt
      by_cases hcmp : score p > bs
      · rw [if_pos hcmp]
        refine ⟨pre.length, hself, rfl, ?_, ?_⟩
        · intro k p' hk
          rcases lt_trichotomy k pre.length with hlt | heq | hgt
          · rw [List.get?_append hlt] at hk
            exact le_of_lt (lt_of_le_of_lt (hall k p' hk) hcmp)
          · subst heq
            rw [hself] at hk
            rcases Option.some_inj.mp hk with rfl
            exact le_refl _
          · rw [hnone k hgt] at hk; cases hk
        · intro k p' hklt hk
          rw [List.get?_append hklt] at hk
          exact lt_of_le_of_lt (hall k p' hk) hcmp
      · rw [if_neg hcmp]
        refine ⟨j, ?_, hbs, ?_, ?_⟩
        · rw [List.get?_append hjlt]; exact hj
        · intro k p' hk
          rcases lt_trichotomy k pre.length with hlt | heq | hgt
          · rw [List.get?_append hlt] at hk
            exact hall k p' hk
          · subst heq
            rw [hself] at hk
            rcases Option.some_inj.mp hk with rfl
            exact le_of_not_lt hcmp
          · rw [hnone k hgt] at hk; cases hk
        · intro k p' hklt hk
          have hlt : k < pre.length := lt_trans hklt hjlt
          rw [List.get?_append hlt] at hk
          exact hstrict k p' hklt hk

/-- Helper: the first-argmax invariant is preserved along the whole
Thompson loop. -/
theorem tsLoop_inv (pathStats : StatsMap) (betaSample : ℚ → ℚ → ℚ) :
    ∀ (l pre : List QPath) (best : Option (QPath × ℚ)),
      TsInv (specScore pathStats betaSample) pre best →
      TsInv (specScore pathStats betaSample) (pre ++ l)
        (tsLoop pathStats betaSample l best) := by
  intro l
  induction l with
  | nil => intro pre best h; simpa [tsLoop] using h
  | cons p rest ih =>
      intro pre best h
      simp only [tsLoop]
      rw [tsSample_eq pathStats betaSample p]
      have h2 := ih (pre ++ [p]) _ (tsInv_append (specScore pathStats betaSample) pre best p h)
      simpa using h2

/-- Claim C7: Thompson-sampling selection scores every candidate as
`betaSample(successCount + 1, (totalCount − successCount) + 1)` divided by
`averageLatencyMs / 1000` (with `averageLatencyMs` defaulting to 1000 for a
candidate with no recorded observations) and returns the candidate with the
highest resulting score, ties broken by first-seen iteration order: the
returned candidate's score is maximal and strictly above every candidate
before it. -/
theorem thompsonSampling_selects_first_argmax (executionPaths : List QPath)
    (pathStats : StatsMap) (betaSample : ℚ → ℚ → ℚ) (h : executionPaths ≠ []) :
    ∃ i p, thompsonSampling executionPaths pathStats betaSample = some p ∧
      executionPaths.get? i = some p ∧
      (∀ k q, executionPaths.get? k = some q →
        specScore pathStats betaSample q ≤ specScore pathStats betaSample p) ∧
      (∀ k q, k < i → executionPaths.get? k = some q →
        specScore pathStats betaSample q < specScore pathStats betaSample p) := by
  have hinv := tsLoop_inv pathStats betaSample executionPaths [] none rfl
  simp only [List.nil_append] at hinv
  cases hbest : tsLoop pathStats betaSample executionPaths none with
  | none =>
      rw [hbest] at hinv
      exact absurd hinv h
  | some bpbs =>
      obtain ⟨bp, bsv⟩ := bpbs
      rw [hbest] at hinv
      obtain ⟨j, hj, hbs, hall, hstrict⟩ := hinv
      refine ⟨j, bp, ?_, hj, ?_, ?_⟩
      · simp [thompsonSampling, hbest]
      · intro k q hk
        have := hall k q hk
        rwa [hbs] at this
      · intro k q hklt hk
        have := hstrict k q hklt hk
        rwa [hbs] at this

/-- Witness for C7 on two unobserved candidates with a deterministic
sampler. -/
theorem thompsonSampling_selects_first_argmax_witness :
    ([⟨"a", 1, "fa"⟩, ⟨"b", 2, "fb"⟩] : List QPath) ≠ [] ∧
    ∃ i p, thompsonSampling [⟨"a", 1, "fa"⟩, ⟨"b", 2, "fb"⟩] emptyStats
        (fun a b => a + b) = some p ∧
      List.get? [⟨"a", 1, "fa"⟩, ⟨"b", 2, "fb"⟩] i = some p ∧
      (∀ k q, List.get? [⟨"a", 1, "fa"⟩, ⟨"b", 2, "fb"⟩] k = some q →
        specScore emptyStats (fun a b => a + b) q
          ≤ specScore emptyStats (fun a b => a + b) p) ∧
      (∀ k q, k < i → List.get? [⟨"a", 1, "fa"⟩, ⟨"b", 2, "fb"⟩] k = some q →
        specScore emptyStats (fun a b => a + b) q
          < specScore emptyStats (fun a b => a + b) p) :=
  ⟨by decide, thompsonSampling_selects_first_argmax _ _ _ (by decide)⟩

end QuantumGate
